import Mathlib

/-!
# Verification of the libdoxa motion-control core

A shallow embedding, over the real numbers, of the parts of the `libdoxa`
robotics library relevant to its specification: the cubic parametric path
planner (`src/path_planner/cubic_parametric.rs`, `src/path_planner/mod.rs`),
the tracking (odometry) subsystem (`src/subsystems/tracking/`), and the
drivetrain runner with its rotation action (`src/subsystems/drivetrain/`).

`f64` values are modelled as real numbers with exact arithmetic, except where
a claim is specifically about IEEE-754 NaN propagation; there a dedicated
`FVal` type (a real number or NaN) is used.  Rust `while` loops are modelled
by fuel-indexed recursion where the fuel is an upper bound, computed from the
loop bounds, on the number of iterations the loop performs; each recursive
step re-checks the loop condition exactly as the source does, so surplus fuel
does not change the result.
-/

noncomputable section

namespace Libdoxa

/-- Euclidean distance on 2-d points: `nalgebra::distance`
(`((x1-x2)^2 + (y1-y2)^2).sqrt()`). -/
def dist (p q : ℝ × ℝ) : ℝ :=
  Real.sqrt ((p.1 - q.1) ^ 2 + (p.2 - q.2) ^ 2)

/-- Rust `f64::atan2`: `y.atan2(x)` is the angle of the point `(x, y)`,
in `(-π, π]`.  Modelled as the complex argument of `x + y·i`, which has the
same value and range. -/
def atan2 (y x : ℝ) : ℝ :=
  Complex.arg ⟨x, y⟩

theorem dist_self_axis (a b c : ℝ) : dist (a, c) (b, c) = |a - b| := by
  simp [dist, Real.sqrt_sq_eq_abs]

theorem atan2_pos_x (x : ℝ) (hx : 0 < x) : atan2 0 x = 0 := by
  have : (⟨x, 0⟩ : ℂ) = ((x : ℝ) : ℂ) := by
    apply Complex.ext <;> simp
  rw [atan2, this, Complex.arg_ofReal_of_nonneg hx.le]

theorem atan2_pos_y (y : ℝ) (hy : 0 < y) : atan2 y 0 = Real.pi / 2 := by
  rw [atan2, Complex.arg_eq_pi_div_two_iff]
  exact ⟨rfl, hy⟩

/-! ## Cubic parametric paths (`src/path_planner/cubic_parametric.rs`) -/

/-- A single cubic polynomial `a t³ + b t² + c t + d` (struct `Cubic`). -/
structure Cubic where
  a : ℝ
  b : ℝ
  c : ℝ
  d : ℝ

namespace Cubic

/-- `Cubic::evaluate`. -/
def evaluate (s : Cubic) (t : ℝ) : ℝ :=
  s.a * t ^ 3 + s.b * t ^ 2 + s.c * t + s.d

/-- `Cubic::evaluate_derivative`. -/
def evaluate_derivative (s : Cubic) (t : ℝ) : ℝ :=
  3 * s.a * t ^ 2 + 2 * s.b * t + s.c

/-- `Cubic::from_endpoints`: the coefficients are
`CURVE_FITTING_MATRIX * (start, end, start_derivative, end_derivative)`,
with the constant matrix

    2  -2   1   1
   -3   3  -2  -1
    0   0   1   0
    1   0   0   0

written out row by row. -/
def from_endpoints (start finish start_derivative end_derivative : ℝ) : Cubic where
  a := 2 * start + (-2) * finish + 1 * start_derivative + 1 * end_derivative
  b := (-3) * start + 3 * finish + (-2) * start_derivative + (-1) * end_derivative
  c := 0 * start + 0 * finish + 1 * start_derivative + 0 * end_derivative
  d := 1 * start + 0 * finish + 0 * start_derivative + 0 * end_derivative

end Cubic

/-- `struct CubicParametricPath`: independent cubics for x and y. -/
structure CubicParametricPath where
  x : Cubic
  y : Cubic

namespace CubicParametricPath

/-- `CubicParametricPath::new`: Hermite fit with tangents
`easing·(cos θ, sin θ)` at each endpoint. -/
def new (start_point : ℝ × ℝ) (start_angle start_easing : ℝ)
    (end_point : ℝ × ℝ) (end_angle end_easing : ℝ) : CubicParametricPath where
  x := Cubic.from_endpoints start_point.1 end_point.1
    (start_easing * Real.cos start_angle) (end_easing * Real.cos end_angle)
  y := Cubic.from_endpoints start_point.2 end_point.2
    (start_easing * Real.sin start_angle) (end_easing * Real.sin end_angle)

/-- `<CubicParametricPath as Path>::evaluate`. -/
def evaluate (p : CubicParametricPath) (t : ℝ) : ℝ × ℝ :=
  (p.x.evaluate t, p.y.evaluate t)

/-- `<CubicParametricPath as Path>::evaluate_angle`: the source computes
`self.x.evaluate_derivative(t).atan2(self.y.evaluate_derivative(t))`, i.e.
`atan2` of the x-derivative with the y-derivative as second argument. -/
def evaluate_angle (p : CubicParametricPath) (t : ℝ) : ℝ :=
  atan2 (p.x.evaluate_derivative t) (p.y.evaluate_derivative t)

/-- The `Path` trait's default `evaluate_angle`: a finite difference with
step `dt = 0.0001` around `evaluate` (`src/path_planner/mod.rs`). -/
def evaluate_angle_default (evalFn : ℝ → ℝ × ℝ) (t : ℝ) : ℝ :=
  let dt : ℝ := 0.0001
  let p1 := evalFn t
  let p2 := evalFn (t + dt)
  atan2 (p2.2 - p1.2) (p2.1 - p1.1)

end CubicParametricPath

/-- The C8 failing input: the cubic path from `(0,0)` with tangent angle `0`
and easing `1` to `(1000, 0)` with tangent angle `0` and easing `1`.  Its
y-polynomial is identically zero and its x-derivative at `t = 0` is `1`, so
the tangent angle at `t = 0` is `0`. -/
def c8Path : CubicParametricPath :=
  CubicParametricPath.new (0, 0) 0 1 (1000, 0) 0 1

/-- **C7**: the cubic built by `CubicParametricPath::new` from endpoints
`p0, p1`, angles `θ0, θ1` and easings `e0, e1` satisfies `evaluate(0) = p0`,
`evaluate(1) = p1`, and its component-wise derivative is `e0·(cos θ0, sin θ0)`
at `t = 0` and `e1·(cos θ1, sin θ1)` at `t = 1`. -/
theorem cubic_hermite_endpoint_conditions
    (p0 p1 : ℝ × ℝ) (θ0 θ1 e0 e1 : ℝ) :
    (let P := CubicParametricPath.new p0 θ0 e0 p1 θ1 e1
     P.evaluate 0 = p0 ∧ P.evaluate 1 = p1 ∧
       (P.x.evaluate_derivative 0, P.y.evaluate_derivative 0)
         = (e0 * Real.cos θ0, e0 * Real.sin θ0) ∧
       (P.x.evaluate_derivative 1, P.y.evaluate_derivative 1)
         = (e1 * Real.cos θ1, e1 * Real.sin θ1)) := by
  refine ⟨?_, ?_, ?_, ?_⟩ <;>
    simp only [CubicParametricPath.new, CubicParametricPath.evaluate,
      Cubic.evaluate, Cubic.evaluate_derivative, Cubic.from_endpoints,
      Prod.mk.injEq, Prod.ext_iff] <;>
    constructor <;> ring

/-- **C8** (code bug): at `t = 0` on `c8Path` the derivative vector is
`(1, 0)`, so the tangent angle — as the `Path` trait documents and as its
default finite-difference implementation computes — is `atan2(dy, dx) = 0`;
but `CubicParametricPath::evaluate_angle` passes the derivatives to `atan2`
in swapped order and returns `π/2`. -/
theorem evaluate_angle_swaps_atan2_arguments :
    c8Path.evaluate_angle 0 = Real.pi / 2 ∧
      CubicParametricPath.evaluate_angle_default c8Path.evaluate 0 = 0 ∧
      atan2 (c8Path.y.evaluate_derivative 0) (c8Path.x.evaluate_derivative 0) = 0 ∧
      Real.pi / 2 ≠ 0 := by
  have hx0 : c8Path.x.evaluate_derivative 0 = 1 := by
    simp [c8Path, CubicParametricPath.new, Cubic.from_endpoints,
      Cubic.evaluate_derivative]
  have hy : c8Path.y = ⟨0, 0, 0, 0⟩ := by
    simp [c8Path, CubicParametricPath.new, Cubic.from_endpoints]
  refine ⟨?_, ?_, ?_, ?_⟩
  · rw [CubicParametricPath.evaluate_angle, hx0, hy]
    simpa [Cubic.evaluate_derivative] using atan2_pos_y 1 one_pos
  · rw [CubicParametricPath.evaluate_angle_default]
    have hyv : ∀ t : ℝ, c8Path.y.evaluate t = 0 := by
      intro t; rw [hy]; simp [Cubic.evaluate]
    simp only [CubicParametricPath.evaluate, hyv, sub_self]
    apply atan2_pos_x
    simp only [c8Path, CubicParametricPath.new, Cubic.from_endpoints,
      Cubic.evaluate]
    norm_num
  · rw [hx0, hy]
    simpa [Cubic.evaluate_derivative] using atan2_pos_x 1 one_pos
  · positivity

/-! ## Tracking subsystem (`src/subsystems/tracking/`)

`vexide::math::Angle` is modelled as a real number of radians
(`Angle::FULL_TURN = 2π`, `Angle::QUARTER_TURN = π/2`, `as_revolutions`
divides by `2π`); `std::time::Instant` as a real number of seconds. -/

/-- `TrackingData`, with the fields `subsystems/tracking/mod.rs` reads and
writes (`offset`, `heading`, `velocity`, `angular_velocity`, `timestamp`,
`dt`, `raw_heading`). -/
structure TrackingData where
  offset : ℝ × ℝ
  heading : ℝ
  velocity : ℝ × ℝ
  angular_velocity : ℝ
  timestamp : Option ℝ
  dt : ℝ
  raw_heading : Option ℝ

/-- The state behind `TrackingSubsystem`'s shared cells: the latest
`TrackingData`, the reverse flag, and the heading offset. -/
structure TrackingSubsystem where
  current : TrackingData
  reverse : Bool
  heading_offset : ℝ

namespace TrackingSubsystem

/-- The mirroring applied by both `current` and `set_current` when the
reverse flag is set: negate `offset.y` and replace `heading` with
`Angle::FULL_TURN - heading`. -/
def mirror (d : TrackingData) : TrackingData :=
  { d with
    offset := (d.offset.1, -d.offset.2)
    heading := 2 * Real.pi - d.heading }

/-- `TrackingSubsystem::current`. -/
def currentData (s : TrackingSubsystem) : TrackingData :=
  if s.reverse then mirror s.current else s.current

/-- `TrackingSubsystem::set_current` (`now` stands for
`std::time::Instant::now()`). -/
def set_current (s : TrackingSubsystem) (offset : ℝ × ℝ) (heading now : ℝ) :
    TrackingSubsystem :=
  let current_raw_heading := s.current.raw_heading.getD 0
  let data : TrackingData :=
    { offset := offset
      heading := heading
      velocity := (0, 0)
      angular_velocity := 0
      timestamp := some now
      dt := 0
      raw_heading := some current_raw_heading }
  { s with
    heading_offset := -heading - current_raw_heading
    current := if s.reverse then mirror data else data }

end TrackingSubsystem

/-- **C2**: `set_current(offset, heading)` followed by `current()`, with no
odometry tick in between, returns exactly the commanded offset and heading;
in reverse mode the mirroring applied on store is undone on read. -/
theorem set_current_then_current_roundtrip
    (s : TrackingSubsystem) (offset : ℝ × ℝ) (heading now : ℝ) :
    ((s.set_current offset heading now).currentData).offset = offset ∧
      ((s.set_current offset heading now).currentData).heading = heading := by
  cases hrev : s.reverse <;>
    simp [TrackingSubsystem.set_current, TrackingSubsystem.currentData,
      TrackingSubsystem.mirror, hrev]

/-- `TrackingWheelMountingDirection`. -/
inductive TrackingWheelMountingDirection
  | parallel
  | perpendicular

/-- `TrackingWheel` (`src/subsystems/tracking/wheel.rs`): the sensor itself
is factored out — sensor reads enter as explicit inputs. -/
structure TrackingWheel where
  circumference : ℝ
  mounting_offset : ℝ
  last_position : ℝ
  mounting_direction : TrackingWheelMountingDirection

namespace TrackingWheel

/-- `TrackingWheel::delta`: reads the sensor position (`position`, radians),
returns `(position - last_position).as_revolutions() * circumference` and
advances `last_position`. -/
def delta (w : TrackingWheel) (position : ℝ) : ℝ × TrackingWheel :=
  ((position - w.last_position) / (2 * Real.pi) * w.circumference,
    { w with last_position := position })

/-- `TrackingWheel::local_delta`, with the sensor read (`position`) passed
in explicitly; returns the local displacement and the advanced wheel. -/
def local_delta (w : TrackingWheel) (heading_delta position : ℝ) :
    (ℝ × ℝ) × TrackingWheel :=
  match w.mounting_direction with
  | .parallel =>
    if heading_delta = 0 then
      ((0, (w.delta position).1), (w.delta position).2)
    else
      ((0, 2 * Real.sin (heading_delta / 2)
          * ((w.delta position).1 / heading_delta + w.mounting_offset)),
        (w.delta position).2)
  | .perpendicular =>
    if heading_delta = 0 then
      (((w.delta position).1, 0), (w.delta position).2)
    else
      ((2 * Real.sin (heading_delta / 2)
          * ((w.delta position).1 / heading_delta + w.mounting_offset), 0),
        (w.delta position).2)

end TrackingWheel

/-- **C6**: `local_delta` is the arc-chord displacement
`2·sin(Δθ/2)·(Δs/Δθ + mounting_offset)` along the wheel's axis (y for a
parallel wheel, x for a perpendicular wheel, the other component zero) when
`Δθ ≠ 0`, and exactly `Δs` on that axis when `Δθ = 0`. -/
theorem local_delta_arc_chord (w : TrackingWheel) (hd position : ℝ) :
    (w.local_delta hd position).1 =
      if hd = 0 then
        match w.mounting_direction with
        | .parallel => ((0 : ℝ), (w.delta position).1)
        | .perpendicular => ((w.delta position).1, 0)
      else
        match w.mounting_direction with
        | .parallel =>
          ((0 : ℝ), 2 * Real.sin (hd / 2)
            * ((w.delta position).1 / hd + w.mounting_offset))
        | .perpendicular =>
          (2 * Real.sin (hd / 2)
            * ((w.delta position).1 / hd + w.mounting_offset), 0) := by
  rcases w with ⟨c, o, l, dir⟩
  cases dir <;> by_cases h : hd = 0 <;>
    simp [TrackingWheel.local_delta, h]

/-- `<RotationSensor as HasRotation>::position` (`src/utils/traits.rs`):
`self.position().unwrap_or_default()` — a failed read (`none`) is replaced
by the default angle `0`. -/
def rotationSensorPosition (reading : Option ℝ) : ℝ :=
  reading.getD 0

/-- The C5 counterexample wheel: a parallel wheel of circumference 100 mm
whose last recorded shaft position is one full revolution (`2π` rad). -/
def c5Wheel : TrackingWheel where
  circumference := 100
  mounting_offset := 0
  last_position := 2 * Real.pi
  mounting_direction := .parallel

/-- **C5 counterexample**: when the sensor read fails, the wheel's delta for
the tick is `-100` mm, not `0`: `unwrap_or_default()` turns the failure into
an absolute reading of position `0`, so the claimed "no update this tick" is
false — the stored pose moves by the full distance back to shaft position 0.
-/
theorem sensor_failure_not_zero_delta :
    (c5Wheel.delta (rotationSensorPosition none)).1 = -100 ∧
      (-100 : ℝ) ≠ 0 := by
  constructor
  · rw [TrackingWheel.delta, rotationSensorPosition]
    simp only [c5Wheel, Option.getD_none]
    rw [zero_sub, neg_div, div_self (by positivity)]
    norm_num
  · norm_num

/-- **C5 amended**: a failed rotation-sensor read yields the default reading
`0`, so the wheel's shaft delta for that tick is
`(0 - last_position)/2π · circumference`: the tick behaves as if the shaft
snapped back to position `0`, which is a zero delta (leaving the pose
unchanged) only when the last recorded position is already `0`. -/
theorem sensor_failure_delta_snaps_to_zero_position (w : TrackingWheel) :
    (w.delta (rotationSensorPosition none)).1 =
      (0 - w.last_position) / (2 * Real.pi) * w.circumference := by
  rw [TrackingWheel.delta, rotationSensorPosition, Option.getD_none]

/-! ## IEEE NaN propagation in the odometry tick

For C10 the relevant `f64` behaviour is that `0.0 / 0.0` is NaN and that NaN
propagates through every arithmetic operation, so the model refines the
plain-real embedding with an explicit NaN element.  (IEEE infinities are not
modelled: the only division by zero reachable here is the empty-sum case
`0.0 / 0.0`.) -/

/-- An `f64` that is either an ordinary (finite) value or NaN. -/
inductive FVal
  | val (x : ℝ)
  | nan

namespace FVal

/-- IEEE addition: NaN propagates. -/
def add : FVal → FVal → FVal
  | val x, val y => val (x + y)
  | _, _ => nan

/-- IEEE multiplication: NaN propagates. -/
def mul : FVal → FVal → FVal
  | val x, val y => val (x * y)
  | _, _ => nan

/-- IEEE division: NaN propagates, and `0/0` (the only division by zero
arising below — the numerator is an empty sum) is NaN. -/
def div : FVal → FVal → FVal
  | val x, val y => if y = 0 then nan else val (x / y)
  | _, _ => nan

theorem add_nan (x : FVal) : x.add nan = nan := by cases x <;> rfl

theorem nan_add (x : FVal) : nan.add x = nan := by cases x <;> rfl

theorem mul_nan (x : FVal) : x.mul nan = nan := by cases x <;> rfl

end FVal

/-- A 2-vector of `f64`s. -/
abbrev FVec2 := FVal × FVal

namespace FVec2

/-- `nalgebra` component-wise vector addition. -/
def add (v w : FVec2) : FVec2 := (v.1.add w.1, v.2.add w.2)

/-- `nalgebra` vector / scalar division, component-wise. -/
def divScalar (v : FVec2) (s : FVal) : FVec2 := (v.1.div s, v.2.div s)

/-- `Vector2::zeros()`. -/
def zeros : FVec2 := (.val 0, .val 0)

/-- `.sum::<Vector2<_>>()` over a list of vectors (zero for an empty list). -/
def sum (l : List FVec2) : FVec2 := l.foldr add zeros

/-- `Rotation2::new(θ) * v`: the rotation matrix
`[[cos θ, -sin θ], [sin θ, cos θ]]` applied to `v`. -/
def rotate (θ : ℝ) (v : FVec2) : FVec2 :=
  ((FVal.val (Real.cos θ)).mul v.1 |>.add ((FVal.val (-Real.sin θ)).mul v.2),
    (FVal.val (Real.sin θ)).mul v.1 |>.add ((FVal.val (Real.cos θ)).mul v.2))

end FVec2

/-- The perpendicular term of `average_displacement` in
`TrackingSubsystem::new`: guarded by `is_empty`, an empty perpendicular list
contributes the zero vector. -/
def perpendicularTerm (perpDeltas : List FVec2) : FVec2 :=
  if perpDeltas.isEmpty then FVec2.zeros
  else (FVec2.sum perpDeltas).divScalar (.val perpDeltas.length)

/-- `average_displacement` from the odometry tick in
`TrackingSubsystem::new`: the guarded perpendicular average plus the
*unguarded* parallel average `sum / len` (`perpDeltas`/`parDeltas` are the
per-wheel `local_delta` results). -/
def average_displacement (perpDeltas parDeltas : List FVec2) : FVec2 :=
  (perpendicularTerm perpDeltas).add
    ((FVec2.sum parDeltas).divScalar (.val parDeltas.length))

/-- The offset update of the odometry tick:
`current.offset + Rotation2::new(average_heading + QUARTER_TURN) * disp`. -/
def tickOffset (offset : FVec2) (average_heading : ℝ) (disp : FVec2) : FVec2 :=
  offset.add (FVec2.rotate (average_heading + Real.pi / 2) disp)

/-- **C10**: with an empty parallel-wheel list the odometry tick divides the
empty (zero) parallel sum by a wheel count of zero, so the displacement and
the accumulated offset are NaN in both components from the first update on —
and stay NaN on every later tick; an empty perpendicular list, by contrast,
is explicitly guarded and contributes the zero vector. -/
theorem empty_parallel_wheels_poison_offset_with_nan :
    (∀ (perpDeltas : List FVec2) (offset : FVec2) (θ : ℝ),
      tickOffset offset θ (average_displacement perpDeltas []) = (.nan, .nan)) ∧
    (∀ (θ : ℝ) (disp : FVec2),
      tickOffset (.nan, .nan) θ disp = (.nan, .nan)) ∧
    perpendicularTerm [] = FVec2.zeros := by
  refine ⟨?_, ?_, ?_⟩
  · intro perpDeltas offset θ
    have hdisp : average_displacement perpDeltas [] = (.nan, .nan) := by
      rw [average_displacement]
      have : (FVec2.sum []).divScalar (.val (List.length ([] : List FVec2))) =
          ((.nan, .nan) : FVec2) := by
        simp [FVec2.sum, FVec2.zeros, FVec2.divScalar, FVal.div]
      rw [this]
      simp [FVec2.add, FVal.add_nan]
    rw [hdisp]
    rcases offset with ⟨x, y⟩
    simp [tickOffset, FVec2.add, FVec2.rotate, FVal.mul_nan, FVal.nan_add,
      FVal.add_nan]
  · intro θ disp
    simp [tickOffset, FVec2.add, FVal.nan_add]
  · rfl

/-! ## PID, settling tolerances and the rotation action
(`src/subsystems/drivetrain/actions/rotation.rs`) -/

/-- Clamp `x` to the symmetric interval `[-limit, limit]` (the `pid` crate's
`apply_limit`). -/
def clampMag (x limit : ℝ) : ℝ :=
  max (-limit) (min limit x)

/-- Modelled from the spec: `src/utils/settling.rs` is not in the source
tree.  §4.4 describes the PID dependency's contract: a positional PID with a
setpoint, per-term gain and per-term output clamp `(k, limit)`, integral
windup bounded by its own clamp, and the overall output clamped to the
output limit (`pid::Pid`). -/
structure Pid where
  setpoint : ℝ
  output_limit : ℝ
  kp : ℝ
  kp_limit : ℝ
  ki : ℝ
  ki_limit : ℝ
  kd : ℝ
  kd_limit : ℝ
  integral_term : ℝ
  prev_measurement : Option ℝ

/-- The `{p, i, d, output}` record returned by `next_control_output`. -/
structure ControlOutput where
  p : ℝ
  i : ℝ
  d : ℝ
  output : ℝ

namespace Pid

/-- Modelled from the spec (§4.4): `Pid::next_control_output(measurement)`.
The error is `setpoint - measurement`; each term is clamped by its own
limit, the derivative acts on the measurement (zero on the first call), and
the sum is clamped by the overall output limit. -/
def next_control_output (pid : Pid) (measurement : ℝ) : ControlOutput × Pid :=
  let error := pid.setpoint - measurement
  let p := clampMag (pid.kp * error) pid.kp_limit
  let i := clampMag (pid.integral_term + pid.ki * error) pid.ki_limit
  let d := clampMag
    (match pid.prev_measurement with
      | none => 0
      | some m => -(pid.kd * (measurement - m))) pid.kd_limit
  let output := clampMag (p + i + d) pid.output_limit
  (⟨p, i, d, output⟩,
    { pid with integral_term := i, prev_measurement := some measurement })

end Pid

/-- Modelled from the spec: `src/utils/settling.rs` is not in the source
tree.  §3's `Tolerances` invariant: `check(error, velocity)` is true iff
`|error| < error_tolerance ∧ |velocity| < velocity_tolerance` has held
continuously for `tolerance_duration`, or the total elapsed time has reached
`timeout`.  `start_time`/`in_band_since` are the detector's internal
timers; `now` stands for the clock read. -/
structure Tolerances where
  error_tolerance : ℝ
  velocity_tolerance : ℝ
  tolerance_duration : ℝ
  timeout : ℝ
  start_time : Option ℝ
  in_band_since : Option ℝ

namespace Tolerances

/-- Modelled from the spec (§3): the settling check. -/
def check (tol : Tolerances) (now error velocity : ℝ) : Bool × Tolerances :=
  let start := tol.start_time.getD now
  if tol.timeout ≤ now - start then
    (true, { tol with start_time := some start })
  else if |error| < tol.error_tolerance ∧ |velocity| < tol.velocity_tolerance then
    let since := tol.in_band_since.getD now
    (decide (tol.tolerance_duration ≤ now - since),
      { tol with start_time := some start, in_band_since := some since })
  else
    (false, { tol with start_time := some start, in_band_since := none })

end Tolerances

/-- `utils::pose::Pose`. -/
structure Pose where
  offset : ℝ × ℝ
  heading : ℝ

/-- `actions::ActionContext`. -/
structure ActionContext where
  pose : Pose
  left_offset : ℝ
  right_offset : ℝ
  left_velocity : ℝ
  right_velocity : ℝ

/-- `drivetrain::VoltagePair` (no units field). -/
structure VoltagePair where
  left : ℝ
  right : ℝ

/-- `struct RotationAction`. -/
structure RotationAction where
  controller : Pid
  tolerances : Tolerances
  initialized : Bool

namespace RotationAction

/-- The first `while` loop of the setpoint normalisation in
`RotationAction::update`: while `setpoint - heading > π`, subtract `2π` from
the setpoint.  Fuel-indexed; each iteration decreases the error by `2π`. -/
def normalizeDown : ℕ → ℝ → ℝ → ℝ
  | 0, setpoint, _ => setpoint
  | fuel + 1, setpoint, heading =>
    if setpoint - heading > Real.pi then
      normalizeDown fuel (setpoint - 2 * Real.pi) heading
    else setpoint

/-- The second `while` loop: while `setpoint - heading < -π`, add `2π`. -/
def normalizeUp : ℕ → ℝ → ℝ → ℝ
  | 0, setpoint, _ => setpoint
  | fuel + 1, setpoint, heading =>
    if setpoint - heading < -Real.pi then
      normalizeUp fuel (setpoint + 2 * Real.pi) heading
    else setpoint

/-- The setpoint used on a tick: normalised to the closest direct angle on
the first tick (`initialized == false`), unchanged afterwards.  The fuel
`⌈|setpoint - heading|⌉ + 1` exceeds the number of iterations either loop
can perform, since each iteration moves the error by `2π > 1` toward the
band `[-π, π]`. -/
def tickSetpoint (a : RotationAction) (ctx : ActionContext) : ℝ :=
  if a.initialized then a.controller.setpoint
  else
    let fuel := (⌈|a.controller.setpoint - ctx.pose.heading|⌉).toNat + 1
    normalizeUp fuel
      (normalizeDown fuel a.controller.setpoint ctx.pose.heading)
      ctx.pose.heading

/-- `RotationAction::update` (`now` stands for the settling detector's clock
read): normalise the setpoint on the first tick, check the turn tolerances
on the error and `left_velocity - right_velocity`, return `None` if settled,
otherwise emit `VoltagePair { left: output, right: -output }` of the turn
PID. -/
def update (a : RotationAction) (ctx : ActionContext) (now : ℝ) :
    RotationAction × Option VoltagePair :=
  let sp := a.tickSetpoint ctx
  let controller := { a.controller with setpoint := sp }
  let error := sp - ctx.pose.heading
  let checked := a.tolerances.check now error
    (ctx.left_velocity - ctx.right_velocity)
  if checked.1 then
    ({ controller := controller, tolerances := checked.2, initialized := true },
      none)
  else
    let stepped := controller.next_control_output ctx.pose.heading
    ({ controller := stepped.2, tolerances := checked.2, initialized := true },
      some ⟨stepped.1.output, -stepped.1.output⟩)

end RotationAction

/-- **C1 amended**: on every tick on which the turn tolerances have not
settled, `RotationAction::update` emits the pair with `left = +output` and
`right = -output` of the turn PID — the opposite of the claimed signs (a
positive PID output *increases* the left side and *decreases* the right
side). -/
theorem rotation_update_emits_output_minus_output
    (a : RotationAction) (ctx : ActionContext) (now : ℝ)
    (h : (a.tolerances.check now (a.tickSetpoint ctx - ctx.pose.heading)
      (ctx.left_velocity - ctx.right_velocity)).1 = false) :
    (a.update ctx now).2 =
      some ⟨(({ a.controller with setpoint := a.tickSetpoint ctx
          }).next_control_output ctx.pose.heading).1.output,
        -(({ a.controller with setpoint := a.tickSetpoint ctx
          }).next_control_output ctx.pose.heading).1.output⟩ := by
  rw [RotationAction.update]
  simp only [h, Bool.false_eq_true, if_false]

/-- The concrete rotation action used for C1's witness and counterexample:
a pure-P turn controller (`kp = 1`, all limits `12`) with setpoint `1` rad,
tolerances `0.01` rad / `0.01` rad·s⁻¹, duration `0.1` s, timeout `5` s,
before its first tick. -/
def c1Action : RotationAction where
  controller :=
    { setpoint := 1, output_limit := 12, kp := 1, kp_limit := 12
      ki := 0, ki_limit := 12, kd := 0, kd_limit := 12
      integral_term := 0, prev_measurement := none }
  tolerances :=
    { error_tolerance := 1 / 100, velocity_tolerance := 1 / 100
      tolerance_duration := 1 / 10, timeout := 5
      start_time := none, in_band_since := none }
  initialized := false

/-- The concrete context for C1: the robot at the origin, heading `0`, at
rest. -/
def c1Ctx : ActionContext where
  pose := { offset := (0, 0), heading := 0 }
  left_offset := 0
  right_offset := 0
  left_velocity := 0
  right_velocity := 0

theorem c1_tickSetpoint : c1Action.tickSetpoint c1Ctx = 1 := by
  have h1 : ¬((1 : ℝ) - 0 > Real.pi) := by
    push_neg
    nlinarith [Real.pi_gt_three]
  have h2 : ¬((1 : ℝ) - 0 < -Real.pi) := by
    push_neg
    nlinarith [Real.pi_gt_three]
  have hceil : (⌈|(1 : ℝ) - 0|⌉).toNat + 1 = 2 := by norm_num
  rw [RotationAction.tickSetpoint]
  simp only [c1Action, c1Ctx, Bool.false_eq_true, if_false, hceil]
  rw [RotationAction.normalizeDown, if_neg h1, RotationAction.normalizeUp,
    if_neg h2]

theorem c1_check_not_settled :
    (c1Action.tolerances.check 0 (c1Action.tickSetpoint c1Ctx - c1Ctx.pose.heading)
      (c1Ctx.left_velocity - c1Ctx.right_velocity)).1 = false := by
  rw [c1_tickSetpoint]
  simp only [c1Action, c1Ctx, Tolerances.check, Option.getD_none]
  rw [if_neg (by norm_num), if_neg (by norm_num)]

/-- **C1 counterexample**: on the concrete non-settled tick `c1Action` /
`c1Ctx` the turn PID output is `1`, and the emitted pair is
`{left: 1, right: -1}` — not the claimed `{left: -output, right: +output}`
`= {left: -1, right: 1}`. -/
theorem rotation_pair_signs_counterexample :
    (c1Action.tolerances.check 0 (c1Action.tickSetpoint c1Ctx - c1Ctx.pose.heading)
        (c1Ctx.left_velocity - c1Ctx.right_velocity)).1 = false ∧
      (({ c1Action.controller with setpoint := c1Action.tickSetpoint c1Ctx
          }).next_control_output c1Ctx.pose.heading).1.output = 1 ∧
      (c1Action.update c1Ctx 0).2 = some ⟨1, -1⟩ ∧
      some (⟨1, -1⟩ : VoltagePair) ≠ some ⟨-1, 1⟩ := by
  have hout : (({ c1Action.controller with
      setpoint := c1Action.tickSetpoint c1Ctx
      }).next_control_output c1Ctx.pose.heading).1.output = 1 := by
    rw [c1_tickSetpoint]
    simp only [c1Action, c1Ctx, Pid.next_control_output, clampMag]
    norm_num
  refine ⟨c1_check_not_settled, hout, ?_, ?_⟩
  · rw [RotationAction.update]
    simp only [c1_check_not_settled, Bool.false_eq_true, if_false]
    rw [show (⟨1, -1⟩ : VoltagePair) = ⟨1, -(1 : ℝ)⟩ by norm_num]
    exact congrArg some (by rw [← hout])
  · intro hcontra
    have := Option.some.inj hcontra
    have hl : (1 : ℝ) = -1 := congrArg VoltagePair.left this
    norm_num at hl

/-- **C1 amended witness**: the amended theorem applied at the concrete
non-settled tick `c1Action` / `c1Ctx`, where the PID output is `1` and the
emitted pair is `{left: 1, right: -1}`. -/
theorem rotation_update_emits_output_minus_output_witness :
    (c1Action.tolerances.check 0 (c1Action.tickSetpoint c1Ctx - c1Ctx.pose.heading)
        (c1Ctx.left_velocity - c1Ctx.right_velocity)).1 = false ∧
      (c1Action.update c1Ctx 0).2 = some ⟨1, -1⟩ := by
  refine ⟨c1_check_not_settled, ?_⟩
  rw [rotation_update_emits_output_minus_output c1Action c1Ctx 0
    c1_check_not_settled]
  have hout : (({ c1Action.controller with
      setpoint := c1Action.tickSetpoint c1Ctx
      }).next_control_output c1Ctx.pose.heading).1.output = 1 := by
    rw [c1_tickSetpoint]
    simp only [c1Action, c1Ctx, Pid.next_control_output, clampMag]
    norm_num
  rw [hout]

/-! ## Drivetrain runner (`src/subsystems/drivetrain/mod.rs`) -/

/-- `drivetrain_pair::DrivetrainUnits`. -/
inductive DrivetrainUnits
  | voltage
  | rpm

/-- `drivetrain_pair::DrivetrainPair`. -/
structure DrivetrainPair where
  left : ℝ
  right : ℝ
  units : DrivetrainUnits

namespace DrivetrainPair

/-- `DrivetrainPair::reverse`: swap left and right. -/
def reverse (p : DrivetrainPair) : DrivetrainPair :=
  { left := p.right, right := p.left, units := p.units }

/-- `DrivetrainPair::max`: ratio-preserving scale keeping both magnitudes
within `m`. -/
def maxScale (p : DrivetrainPair) (m : ℝ) : DrivetrainPair :=
  if |p.left| ≤ m ∧ |p.right| ≤ m then p
  else
    let ratio := if |p.right| ≤ |p.left| then m / |p.left| else m / |p.right|
    { left := p.left * ratio, right := p.right * ratio, units := p.units }

end DrivetrainPair

/-- `LOOP_TIME` (milliseconds). -/
def LOOP_TIME : ℝ := 10

/-- `max_acceleration_loop = max_acceleration * LOOP_TIME / 1000.0`
(RPM per loop iteration; `max_acceleration` is in RPM/s). -/
def max_acceleration_loop (max_acceleration : ℝ) : ℝ :=
  max_acceleration * LOOP_TIME / 1000

/-- Rust `as i32`: truncation toward zero (saturation at the `i32` bounds is
not modelled). -/
def truncToInt (x : ℝ) : ℤ :=
  if 0 ≤ x then ⌊x⌋ else ⌈x⌉

/-- What a tick writes to one motor group. -/
inductive MotorWrite
  | voltage (volts : ℝ)
  | velocity (rpm : ℤ)

/-- The runner's per-side mutable state: the last commanded RPMs. -/
structure DrivetrainRunnerState where
  last_left_rpm : ℝ
  last_right_rpm : ℝ

/-- One iteration of the drivetrain runner's loop body, for a tick on which
the active action returned `Some(pair)`: swap sides if the tracking
subsystem is reversed, then either scale and write voltages, or apply the
per-side acceleration limit, record the limited values as the last RPMs and
write the (truncated) velocity setpoints. -/
def drivetrainTick (macc : ℝ) (st : DrivetrainRunnerState) (reverse : Bool)
    (max_voltage : ℝ) (pair : DrivetrainPair) :
    (MotorWrite × MotorWrite) × DrivetrainRunnerState :=
  let voltage := if reverse then pair.reverse else pair
  match voltage.units with
  | .voltage =>
    let v := voltage.maxScale max_voltage
    ((.voltage v.left, .voltage v.right), st)
  | .rpm =>
    let l :=
      if voltage.left > st.last_left_rpm then
        min voltage.left (st.last_left_rpm + macc)
      else if voltage.left < st.last_left_rpm then
        max voltage.left (st.last_left_rpm - macc)
      else voltage.left
    let r :=
      if voltage.right > st.last_right_rpm then
        min voltage.right (st.last_right_rpm + macc)
      else if voltage.right < st.last_right_rpm then
        max voltage.right (st.last_right_rpm - macc)
      else voltage.right
    ((.velocity (truncToInt l), .velocity (truncToInt r)),
      { last_left_rpm := l, last_right_rpm := r })

/-- Clamping `x` to `[lo, hi]`, as the claim states it. -/
def clampTo (x lo hi : ℝ) : ℝ :=
  min (max x lo) hi

theorem branchy_limit_eq_clampTo (v prev macc : ℝ) (h : 0 ≤ macc) :
    (if v > prev then min v (prev + macc)
      else if v < prev then max v (prev - macc) else v) =
      clampTo v (prev - macc) (prev + macc) := by
  rcases lt_trichotomy v prev with hlt | heq | hgt
  · rw [if_neg (not_lt.mpr hlt.le), if_pos hlt, clampTo]
    rw [min_eq_left]
    exact le_trans (max_le hlt.le (by linarith)) (by linarith)
  · subst heq
    rw [if_neg (lt_irrefl v), if_neg (lt_irrefl v), clampTo]
    rw [max_eq_left (by linarith), min_eq_left (by linarith)]
  · rw [if_pos hgt, clampTo]
    rw [max_eq_left (le_trans (by linarith) hgt.le), min_comm]

/-- **C9**: on a runner tick whose action returned a pair in RPM units, each
side's commanded RPM is clamped to
`[prev - max_accel·dt, prev + max_accel·dt]` (with `dt` the 10 ms loop time,
i.e. `macc = max_acceleration · 10/1000` RPM per tick), the per-side
last-RPM state is updated to exactly the clamped value, and the velocity
setpoints written are those clamped values (truncated to integers by the
`as i32` cast). -/
theorem rpm_tick_acceleration_clamp (max_acceleration : ℝ)
    (h : 0 ≤ max_acceleration) (st : DrivetrainRunnerState) (reverse : Bool)
    (max_voltage : ℝ) (pair : DrivetrainPair) (hu : pair.units = .rpm) :
    let macc := max_acceleration_loop max_acceleration
    let eff := if reverse then pair.reverse else pair
    let l := clampTo eff.left (st.last_left_rpm - macc) (st.last_left_rpm + macc)
    let r := clampTo eff.right (st.last_right_rpm - macc) (st.last_right_rpm + macc)
    drivetrainTick macc st reverse max_voltage pair =
      ((.velocity (truncToInt l), .velocity (truncToInt r)),
        { last_left_rpm := l, last_right_rpm := r }) := by
  intro macc eff l r
  have hmacc : 0 ≤ macc := by
    show 0 ≤ max_acceleration_loop max_acceleration
    rw [max_acceleration_loop, LOOP_TIME]
    positivity
  have heu : eff.units = .rpm := by
    rcases pair with ⟨pl, pr, pu⟩
    cases reverse <;> simp_all [DrivetrainPair.reverse, eff]
  rw [drivetrainTick]
  have hsplit : (if reverse then pair.reverse else pair) = eff := rfl
  rw [hsplit]
  rcases eff with ⟨el, er, eu⟩
  cases eu with
  | voltage => exact absurd heu (by simp)
  | rpm =>
    simp only
    rw [branchy_limit_eq_clampTo el st.last_left_rpm macc hmacc,
      branchy_limit_eq_clampTo er st.last_right_rpm macc hmacc]

/-- **C9 witness**: the clamp theorem at a concrete tick: `max_accel = 100`
RPM/s gives `macc = 1` RPM per 10 ms tick; from last RPMs `(0, 0)` the
commanded pair `(5, -3)` (RPM) is limited to `(1, -1)` and the last-RPM
state becomes `(1, -1)`. -/
theorem rpm_tick_acceleration_clamp_witness :
    (0 : ℝ) ≤ 100 ∧
      drivetrainTick (max_acceleration_loop 100)
        ⟨0, 0⟩ false 12 ⟨5, -3, .rpm⟩ =
        ((.velocity 1, .velocity (-1)), ⟨1, -1⟩) := by
  refine ⟨by norm_num, ?_⟩
  rw [rpm_tick_acceleration_clamp 100 (by norm_num) ⟨0, 0⟩ false 12
    ⟨5, -3, .rpm⟩ rfl]
  have hmacc : max_acceleration_loop 100 = 1 := by
    rw [max_acceleration_loop, LOOP_TIME]; norm_num
  simp only [hmacc, DrivetrainPair.reverse, Bool.false_eq_true, if_false]
  have hl : clampTo 5 (0 - 1) (0 + 1) = 1 := by
    rw [clampTo]; norm_num
  have hr : clampTo (-3) (0 - 1) (0 + 1) = -1 := by
    rw [clampTo]; norm_num
  rw [hl, hr]
  have h1 : truncToInt 1 = 1 := by rw [truncToInt, if_pos (by norm_num)]; norm_num
  have h2 : truncToInt (-1) = -1 := by
    rw [truncToInt, if_neg (by norm_num),
      show ((-1 : ℝ)) = ((-1 : ℤ) : ℝ) by norm_num, Int.ceil_intCast]
  rw [h1, h2]

/-! ## `Path::point_on_radius` (`src/path_planner/mod.rs`)

The trait's provided method is generic in the implementor; the model takes
the implementor's `evaluate` as a function argument.  The `f64` running
minimum is initialised to `f64::MAX`, modelled by `Option ℝ` with `none`
for the initial sentinel (every finite residual compares below it, exactly
as every residual of interest compares below `f64::MAX`). -/

/-- The loop body's best-so-far update in `point_on_radius`:
`if (distance - radius).abs() < closest_distance` replace `closest_t` and
`closest_distance`. -/
def porUpdate (residual t : ℝ) (s : ℝ × Option ℝ) : ℝ × Option ℝ :=
  match s.2 with
  | none => (t, some residual)
  | some c => if residual < c then (t, some residual) else s

/-- The `while t <= 1.0` sweep of `point_on_radius`, fuel-indexed; `dt` is
`0.001` and the state is `(closest_t, closest_distance)`. -/
def porLoop (evalFn : ℝ → ℝ × ℝ) (point : ℝ × ℝ) (radius : ℝ) :
    ℕ → ℝ → ℝ × Option ℝ → ℝ × Option ℝ
  | 0, _, s => s
  | fuel + 1, t, s =>
    if t ≤ 1 then
      porLoop evalFn point radius fuel (t + 1 / 1000)
        (porUpdate (|dist (evalFn t) point - radius|) t s)
    else s

/-- The number of iterations the sweep performs from `t0`: the samples are
`t0 + k·0.001` for `k = 0, …, ⌊(1 - t0)·1000⌋`, none if `t0 > 1`. -/
def porCount (t0 : ℝ) : ℕ :=
  if t0 ≤ 1 then (⌊(1 - t0) * 1000⌋).toNat + 1 else 0

/-- The sample grid the sweep visits. -/
def porSamples (t0 : ℝ) : List ℝ :=
  (List.range (porCount t0)).map fun k : ℕ => t0 + (k : ℝ) * (1 / 1000)

/-- `Path::point_on_radius(point, radius, initial_t)`: sweep from
`initial_t.unwrap_or(0.0)` to `1` in `0.001` steps, track the `t`
minimising `|distance − radius|`, and return it only if the minimal
residual is below `3.0`. -/
def point_on_radius (evalFn : ℝ → ℝ × ℝ) (point : ℝ × ℝ) (radius : ℝ)
    (initial_t : Option ℝ) : Option ℝ :=
  let t0 := initial_t.getD 0
  let res := porLoop evalFn point radius (porCount t0 + 1) t0 (t0, none)
  match res.2 with
  | some c => if c < 3 then some res.1 else none
  | none => none

/-- The list of `t`s a fuel-indexed `while t ≤ 1, t += 0.001` sweep visits. -/
def porVisits : ℕ → ℝ → List ℝ
  | 0, _ => []
  | fuel + 1, t => if t ≤ 1 then t :: porVisits fuel (t + 1 / 1000) else []

theorem porLoop_eq_foldl (evalFn : ℝ → ℝ × ℝ) (point : ℝ × ℝ) (radius : ℝ) :
    ∀ (fuel : ℕ) (t : ℝ) (s : ℝ × Option ℝ),
      porLoop evalFn point radius fuel t s =
        (porVisits fuel t).foldl
          (fun s u => porUpdate (|dist (evalFn u) point - radius|) u s) s := by
  intro fuel
  induction fuel with
  | zero => intro t s; rfl
  | succ n ih =>
    intro t s
    rw [porLoop, porVisits]
    by_cases h : t ≤ 1
    · rw [if_pos h, if_pos h, List.foldl_cons, ih]
    · rw [if_neg h, if_neg h, List.foldl_nil]

theorem porVisits_eq_grid :
    ∀ (n : ℕ) (t : ℝ), (∀ k < n, t + k * (1 / 1000 : ℝ) ≤ 1) →
      ¬(t + n * (1 / 1000 : ℝ) ≤ 1) →
      porVisits (n + 1) t =
        (List.range n).map (fun k : ℕ => t + (k : ℝ) * (1 / 1000)) := by
  intro n
  induction n with
  | zero =>
    intro t _ hstop
    have h0 : ¬(t ≤ 1) := by
      intro h; exact hstop (by push_cast; linarith)
    rw [porVisits, if_neg h0, List.range_zero, List.map_nil]
  | succ n ih =>
    intro t hall hstop
    have h0 : t ≤ 1 := by
      have := hall 0 (Nat.succ_pos n)
      push_cast at this; linarith
    rw [porVisits, if_pos h0]
    have htail : porVisits (n + 1) (t + 1 / 1000) =
        (List.range n).map (fun k : ℕ => (t + 1 / 1000) + (k : ℝ) * (1 / 1000)) := by
      apply ih
      · intro k hk
        have := hall (k + 1) (by omega)
        push_cast at this ⊢; linarith
      · intro h
        apply hstop
        push_cast at h ⊢; linarith
    rw [htail, List.range_succ_eq_map, List.map_cons, List.map_map]
    congr 1
    · push_cast; ring
    · apply List.map_congr_left
      intro k _
      simp only [Function.comp_apply]
      push_cast; ring

theorem porCount_spec (t0 : ℝ) :
    (∀ k < porCount t0, t0 + k * (1 / 1000 : ℝ) ≤ 1) ∧
      ¬(t0 + (porCount t0) * (1 / 1000 : ℝ) ≤ 1) := by
  by_cases h : t0 ≤ 1
  · have hM0 : (0 : ℤ) ≤ ⌊(1 - t0) * 1000⌋ :=
      Int.floor_nonneg.mpr (by nlinarith)
    have hcount : porCount t0 = (⌊(1 - t0) * 1000⌋).toNat + 1 := if_pos h
    constructor
    · intro k hk
      rw [hcount] at hk
      have hkM : (k : ℤ) ≤ ⌊(1 - t0) * 1000⌋ := by
        have := Int.toNat_of_nonneg hM0
        omega
      have hkr : (k : ℝ) ≤ (1 - t0) * 1000 := by
        have := Int.le_floor.mp hkM
        push_cast at this
        exact this
      linarith
    · intro hcontra
      rw [hcount] at hcontra
      have hfl : (1 - t0) * 1000 < ⌊(1 - t0) * 1000⌋ + 1 :=
        Int.lt_floor_add_one _
      have h1 : ((⌊(1 - t0) * 1000⌋.toNat : ℕ) : ℝ)
          = ((⌊(1 - t0) * 1000⌋ : ℤ) : ℝ) :=
        mod_cast congrArg (fun z : ℤ => (z : ℝ)) (Int.toNat_of_nonneg hM0)
      have hcast : (((⌊(1 - t0) * 1000⌋).toNat + 1 : ℕ) : ℝ)
          = ((⌊(1 - t0) * 1000⌋ : ℤ) : ℝ) + 1 := by
        rw [Nat.cast_add, Nat.cast_one, h1]
      rw [hcast] at hcontra
      linarith
  · have hcount : porCount t0 = 0 := if_neg h
    rw [hcount]
    constructor
    · intro k hk; omega
    · intro hcontra
      push_cast at hcontra
      exact h (by linarith)

theorem porFold_none_cons (f : ℝ → ℝ) (u ct : ℝ) (L : List ℝ) :
    (u :: L).foldl (fun s v => porUpdate (f v) v s) (ct, none) =
      L.foldl (fun s v => porUpdate (f v) v s) (u, some (f u)) := by
  rw [List.foldl_cons]
  rfl

/-- Characterisation of the strict best-so-far fold: either no element beats
the incoming best `c` (and the state is unchanged), or the result is the
first element `w` achieving the minimum — every element before `w` is
strictly worse than `w`, every element after is no better. -/
theorem porFold_split (f : ℝ → ℝ) :
    ∀ (L : List ℝ) (ct c : ℝ),
      ((∀ u ∈ L, c ≤ f u) ∧
        L.foldl (fun s v => porUpdate (f v) v s) (ct, some c) = (ct, some c)) ∨
      (∃ L1 w L2, L = L1 ++ w :: L2 ∧ f w < c ∧
        (∀ v ∈ L1, f w < f v) ∧ (∀ v ∈ L2, f w ≤ f v) ∧
        L.foldl (fun s v => porUpdate (f v) v s) (ct, some c)
          = (w, some (f w))) := by
  intro L
  induction L with
  | nil =>
    intro ct c
    refine Or.inl ⟨?_, rfl⟩
    intro u hu
    cases hu
  | cons u L ih =>
    intro ct c
    rw [List.foldl_cons]
    by_cases h : f u < c
    · have hstep : porUpdate (f u) u (ct, some c) = (u, some (f u)) := by
        rw [porUpdate]; exact if_pos h
      rw [hstep]
      rcases ih u (f u) with ⟨hall, heq⟩ | ⟨L1, w, L2, hsplit, hlt, h1, h2, heq⟩
      · refine Or.inr ⟨[], u, L, by simp, h, ?_, hall, heq⟩
        intro v hv; cases hv
      · refine Or.inr ⟨u :: L1, w, L2, by rw [hsplit]; rfl,
          hlt.trans h, ?_, h2, heq⟩
        intro v hv
        rcases List.mem_cons.mp hv with hv | hv
        · subst hv; exact hlt
        · exact h1 v hv
    · have hstep : porUpdate (f u) u (ct, some c) = (ct, some c) := by
        rw [porUpdate]; exact if_neg h
      rw [hstep]
      rcases ih ct c with ⟨hall, heq⟩ | ⟨L1, w, L2, hsplit, hlt, h1, h2, heq⟩
      · refine Or.inl ⟨?_, heq⟩
        intro v hv
        rcases List.mem_cons.mp hv with hv | hv
        · subst hv; exact not_lt.mp h
        · exact hall v hv
      · refine Or.inr ⟨u :: L1, w, L2, by rw [hsplit]; rfl, hlt, ?_, h2, heq⟩
        intro v hv
        rcases List.mem_cons.mp hv with hv | hv
        · subst hv; exact lt_of_lt_of_le hlt (not_lt.mp h)
        · exact h1 v hv

theorem porSamples_nil (t0 : ℝ) (h : ¬t0 ≤ 1) : porSamples t0 = [] := by
  rw [porSamples, porCount, if_neg h, List.range_zero, List.map_nil]

theorem porSamples_cons (t0 : ℝ) (h : t0 ≤ 1) :
    ∃ rest, porSamples t0 = t0 :: rest := by
  rw [porSamples, porCount, if_pos h, List.range_succ_eq_map, List.map_cons]
  exact ⟨_, by rw [Nat.cast_zero, zero_mul, add_zero]⟩

theorem porSamples_pairwise (t0 : ℝ) : (porSamples t0).Pairwise (· < ·) := by
  rw [porSamples]
  refine List.Pairwise.map _ ?_ (List.pairwise_lt_range _)
  intro a b hab
  have hab' : (a : ℝ) < b := by exact_mod_cast hab
  have := mul_lt_mul_of_pos_right hab' (by norm_num : (0 : ℝ) < 1 / 1000)
  linarith

theorem porVisits_eq_samples (t0 : ℝ) :
    porVisits (porCount t0 + 1) t0 = porSamples t0 := by
  have hs := porCount_spec t0
  rw [porVisits_eq_grid (porCount t0) t0 hs.1 hs.2, porSamples]

/-- **C3**: `point_on_radius` sweeps forward from the hint to `1` in `0.001`
steps; it returns `some t*` exactly when some sampled residual
`|dist(evaluate(t), q) − r|` is below 3 mm, and then `t*` is the sampled `t`
of minimal residual, the smallest such `t` on ties. -/
theorem point_on_radius_first_argmin_iff_3mm (evalFn : ℝ → ℝ × ℝ)
    (point : ℝ × ℝ) (radius : ℝ) (initial_t : Option ℝ) :
    (let t0 := initial_t.getD 0
     let L := porSamples t0
     let f := fun t => |dist (evalFn t) point - radius|
     (point_on_radius evalFn point radius initial_t = none ↔
         ∀ t ∈ L, 3 ≤ f t) ∧
       ∀ tstar, point_on_radius evalFn point radius initial_t = some tstar →
         tstar ∈ L ∧ f tstar < 3 ∧ (∀ t ∈ L, f tstar ≤ f t) ∧
           ∀ t ∈ L, f t = f tstar → tstar ≤ t) := by
  intro t0 L f
  have hLdef : L = porSamples t0 := rfl
  have hpor : point_on_radius evalFn point radius initial_t =
      (match (L.foldl (fun s v => porUpdate (f v) v s) (t0, none)).2 with
        | some c =>
          if c < 3 then
            some (L.foldl (fun s v => porUpdate (f v) v s) (t0, none)).1
          else none
        | none => none) := by
    rw [point_on_radius, porLoop_eq_foldl, porVisits_eq_samples, ← hLdef]
  by_cases hle : t0 ≤ 1
  · obtain ⟨rest, hLs⟩ := porSamples_cons t0 hle
    have hL : L = t0 :: rest := hLdef.trans hLs
    have hpairL : L.Pairwise (· < ·) := hLdef ▸ porSamples_pairwise t0
    have hpairrest : (∀ v ∈ rest, t0 < v) ∧ rest.Pairwise (· < ·) := by
      have h' := hpairL
      rw [hL, List.pairwise_cons] at h'
      exact h'
    have hfold : L.foldl (fun s v => porUpdate (f v) v s) (t0, none) =
        rest.foldl (fun s v => porUpdate (f v) v s) (t0, some (f t0)) := by
      rw [hL, porFold_none_cons]
    rcases porFold_split f rest t0 (f t0) with
      ⟨hall, heq⟩ | ⟨L1, w, L2, hsplit, hlt, h1, h2, heq⟩
    · -- no later sample beats the first one; the result is the first sample
      rw [hfold, heq] at hpor
      have hmin : ∀ t ∈ L, f t0 ≤ f t := by
        intro t ht
        rw [hL, List.mem_cons] at ht
        rcases ht with ht | ht
        · subst ht; exact le_refl _
        · exact hall t ht
      have hmem0 : t0 ∈ L := by rw [hL]; exact List.mem_cons_self _ _
      have hpor2 : point_on_radius evalFn point radius initial_t =
          if f t0 < 3 then some t0 else none := by rw [hpor]
      by_cases h3 : f t0 < 3
      · rw [if_pos h3] at hpor2
        constructor
        · rw [hpor2]
          constructor
          · intro hcontra; cases hcontra
          · intro hcontra
            exact absurd (hcontra t0 hmem0) (not_le.mpr h3)
        · intro tstar hstar
          rw [hpor2] at hstar
          obtain rfl : t0 = tstar := Option.some.inj hstar
          refine ⟨hmem0, h3, hmin, ?_⟩
          intro t ht _
          rw [hL, List.mem_cons] at ht
          rcases ht with ht | ht
          · subst ht; exact le_refl _
          · exact (hpairrest.1 t ht).le
      · rw [if_neg h3] at hpor2
        constructor
        · rw [hpor2]
          constructor
          · intro _ t ht
            exact le_trans (not_lt.mp h3) (hmin t ht)
          · intro _; rfl
        · intro tstar hstar
          rw [hpor2] at hstar
          cases hstar
    · -- the strict minimum is the first sample `w` beating the start
      rw [hfold, heq] at hpor
      have hwrest : w ∈ rest := by
        rw [hsplit]; exact List.mem_append_right _ (List.mem_cons_self _ _)
      have hwmem : w ∈ L := by rw [hL]; exact List.mem_cons_of_mem _ hwrest
      have hmin : ∀ t ∈ L, f w ≤ f t := by
        intro t ht
        rw [hL, List.mem_cons] at ht
        rcases ht with ht | ht
        · subst ht; exact hlt.le
        · rw [hsplit, List.mem_append, List.mem_cons] at ht
          rcases ht with ht | ht | ht
          · exact (h1 t ht).le
          · subst ht; exact le_refl _
          · exact h2 t ht
      have hties : ∀ t ∈ L, f t = f w → w ≤ t := by
        intro t ht hft
        rw [hL, List.mem_cons] at ht
        rcases ht with ht | ht
        · subst ht; exact absurd hft (ne_of_gt hlt)
        · rw [hsplit, List.mem_append, List.mem_cons] at ht
          rcases ht with ht | ht | ht
          · exact absurd hft (ne_of_gt (h1 t ht))
          · subst ht; exact le_refl _
          · have hw2 : ∀ v ∈ L2, w < v := by
              have := hpairrest.2
              rw [hsplit, List.pairwise_append, List.pairwise_cons] at this
              exact this.2.1.1
            exact (hw2 t ht).le
      have hpor2 : point_on_radius evalFn point radius initial_t =
          if f w < 3 then some w else none := by rw [hpor]
      by_cases h3 : f w < 3
      · rw [if_pos h3] at hpor2
        constructor
        · rw [hpor2]
          constructor
          · intro hcontra; cases hcontra
          · intro hcontra
            exact absurd (hcontra w hwmem) (not_le.mpr h3)
        · intro tstar hstar
          rw [hpor2] at hstar
          obtain rfl : w = tstar := Option.some.inj hstar
          exact ⟨hwmem, h3, hmin, hties⟩
      · rw [if_neg h3] at hpor2
        constructor
        · rw [hpor2]
          constructor
          · intro _ t ht
            exact le_trans (not_lt.mp h3) (hmin t ht)
          · intro _; rfl
        · intro tstar hstar
          rw [hpor2] at hstar
          cases hstar
  · -- the hint is beyond 1: no sample is taken, the result is `None`
    have hnil : L = [] := hLdef.trans (porSamples_nil t0 hle)
    rw [hnil] at hpor
    simp only [List.foldl_nil] at hpor
    have hpor2 : point_on_radius evalFn point radius initial_t = none := by
      rw [hpor]
    constructor
    · rw [hpor2, hnil]
      constructor
      · intro _ t ht; cases ht
      · intro _; rfl
    · intro tstar hstar
      rw [hpor2] at hstar
      cases hstar

theorem c3ExampleDist : dist ((0 : ℝ), (0 : ℝ)) (3, 4) = 5 := by
  rw [dist]
  have h25 : ((0 : ℝ), (0 : ℝ)).1 - ((3 : ℝ), (4 : ℝ)).1 = -3 := by norm_num
  have h25' : ((0 : ℝ), (0 : ℝ)).2 - ((3 : ℝ), (4 : ℝ)).2 = -4 := by norm_num
  rw [h25, h25', show ((-3 : ℝ)) ^ 2 + (-4 : ℝ) ^ 2 = 5 ^ 2 by norm_num]
  exact Real.sqrt_sq (by norm_num)

theorem c3ExampleEval :
    point_on_radius (fun _ => ((0 : ℝ), (0 : ℝ))) (3, 4) 5 (some 1) = some 1 := by
  have hcount1 : porCount (1 : ℝ) = 1 := by
    rw [porCount, if_pos le_rfl]
    norm_num
  have hupd : porUpdate (|dist ((0 : ℝ), (0 : ℝ)) (3, 4) - 5|) 1
      ((1 : ℝ), (none : Option ℝ)) = (1, some 0) := by
    show ((1 : ℝ), some (|dist ((0 : ℝ), (0 : ℝ)) (3, 4) - 5|)) = (1, some 0)
    rw [c3ExampleDist]
    norm_num
  have hloop : porLoop (fun _ => ((0 : ℝ), (0 : ℝ))) (3, 4) 5 (1 + 1) 1
      ((1 : ℝ), (none : Option ℝ)) = (1, some 0) := by
    rw [porLoop, if_pos (le_refl (1 : ℝ))]
    rw [hupd]
    show porLoop (fun _ => ((0 : ℝ), (0 : ℝ))) (3, 4) 5 (0 + 1) (1 + 1 / 1000)
      ((1 : ℝ), some 0) = (1, some 0)
    rw [porLoop, if_neg (by norm_num : ¬(1 + 1 / 1000 : ℝ) ≤ 1)]
  simp only [point_on_radius, Option.getD_some, hcount1, hloop]
  show (if (0 : ℝ) < 3 then some (1 : ℝ) else none) = some 1
  rw [if_pos (by norm_num : (0 : ℝ) < 3)]

/-- **C3 witness**: the argmin theorem applied at the concrete input
`evaluate = const (0,0)`, `q = (3,4)`, `r = 5`, `hint = 1`: the single
sample is `t = 1`, its residual `|5 - 5| = 0` is below 3 mm, and the result
is `some 1`. -/
theorem point_on_radius_first_argmin_iff_3mm_witness :
    point_on_radius (fun _ => ((0 : ℝ), (0 : ℝ))) (3, 4) 5 (some 1) = some 1 ∧
      (1 : ℝ) ∈ porSamples 1 ∧
      |dist ((0 : ℝ), (0 : ℝ)) (3, 4) - 5| < 3 := by
  obtain ⟨hmem, hlt, -, -⟩ :=
    (point_on_radius_first_argmin_iff_3mm (fun _ => ((0 : ℝ), (0 : ℝ)))
      (3, 4) 5 (some 1)).2 1 c3ExampleEval
  exact ⟨c3ExampleEval, hmem, hlt⟩

/-! ## `Path::closest_point` (`src/path_planner/mod.rs`)

The same modelling conventions as `point_on_radius`: the implementor's
`evaluate` is a function argument, the `f64::MAX` initial minimum is
`none`, and each `while` loop is fuel-indexed with the fuel an upper bound
derived from the loop bounds.  The state carries `closest_t`,
`closest_distance` and `last_distance`, which the source shares between the
forward and the reverse loop. -/

/-- The loop state of `closest_point`. -/
structure CPState where
  closest_t : ℝ
  closest_distance : Option ℝ
  last_distance : ℝ

/-- `if distance < closest_distance { closest_distance = distance;
closest_t = t; }`. -/
def cpUpdate (d t : ℝ) (s : CPState) : CPState :=
  match s.closest_distance with
  | none => { s with closest_t := t, closest_distance := some d }
  | some c =>
    if d < c then { s with closest_t := t, closest_distance := some d } else s

/-- The forward loop: `while t <= 1.0 + overshoot`, with the
min-then-break-then-update-last body and `t += 0.01`. -/
def cpForward (evalFn : ℝ → ℝ × ℝ) (point : ℝ × ℝ) (ov : ℝ) :
    ℕ → ℝ → CPState → CPState
  | 0, _, s => s
  | fuel + 1, t, s =>
    if t ≤ 1 + ov then
      let d := dist (evalFn t) point
      let s1 := cpUpdate d t s
      if d > s1.last_distance then s1
      else cpForward evalFn point ov fuel (t + 1 / 100)
        { s1 with last_distance := d }
    else s

/-- The reverse loop: `while t >= 0.0 - overshoot`, same body, `t -= 0.01`.
`last_distance` is *not* reset before this loop: the state flows in from the
end of the forward loop. -/
def cpReverse (evalFn : ℝ → ℝ × ℝ) (point : ℝ × ℝ) (ov : ℝ) :
    ℕ → ℝ → CPState → CPState
  | 0, _, s => s
  | fuel + 1, t, s =>
    if 0 - ov ≤ t then
      let d := dist (evalFn t) point
      let s1 := cpUpdate d t s
      if d > s1.last_distance then s1
      else cpReverse evalFn point ov fuel (t - 1 / 100)
        { s1 with last_distance := d }
    else s

/-- Number of forward samples: `t0 + k·0.01` for
`k = 0, …, ⌊(1 + ov - t0)·100⌋`, none if `t0 > 1 + ov`. -/
def cpFwdCount (t0 ov : ℝ) : ℕ :=
  if t0 ≤ 1 + ov then (⌊(1 + ov - t0) * 100⌋).toNat + 1 else 0

/-- Number of reverse samples: `t0 - k·0.01` for
`k = 0, …, ⌊(t0 + ov)·100⌋`, none if `t0 < -ov`. -/
def cpRevCount (t0 ov : ℝ) : ℕ :=
  if 0 - ov ≤ t0 then (⌊(t0 + ov) * 100⌋).toNat + 1 else 0

/-- `Path::closest_point(point, initial_t, overshoot)`. -/
def closest_point (evalFn : ℝ → ℝ × ℝ) (point : ℝ × ℝ)
    (initial_t overshoot : Option ℝ) : ℝ :=
  let t0 := initial_t.getD 0
  let ov := overshoot.getD 0
  let s0 : CPState := ⟨t0, none, dist (evalFn t0) point⟩
  let s1 := cpForward evalFn point ov (cpFwdCount t0 ov + 1) t0 s0
  let s2 := cpReverse evalFn point ov (cpRevCount t0 ov + 1) t0 s1
  s2.closest_t

/-- The forward sample grid. -/
def fwdGrid (t0 ov : ℝ) : List ℝ :=
  (List.range (cpFwdCount t0 ov)).map fun k : ℕ => t0 + (k : ℝ) * (1 / 100)

/-- The reverse sample grid. -/
def revGrid (t0 ov : ℝ) : List ℝ :=
  (List.range (cpRevCount t0 ov)).map fun k : ℕ => t0 - (k : ℝ) * (1 / 100)

/-- The `t`s a fuel-indexed forward sweep would visit (break ignored). -/
def cpVisitsF (ov : ℝ) : ℕ → ℝ → List ℝ
  | 0, _ => []
  | fuel + 1, t => if t ≤ 1 + ov then t :: cpVisitsF ov fuel (t + 1 / 100) else []

/-- The `t`s a fuel-indexed reverse sweep would visit (break ignored). -/
def cpVisitsR (ov : ℝ) : ℕ → ℝ → List ℝ
  | 0, _ => []
  | fuel + 1, t => if 0 - ov ≤ t then t :: cpVisitsR ov fuel (t - 1 / 100) else []

/-- The list-level pass: the shared body of both loops, consuming the
window's sample list and honouring the break. -/
def cpPassList (dfun : ℝ → ℝ) : List ℝ → CPState → CPState
  | [], s => s
  | t :: rest, s =>
    let d := dfun t
    let s1 := cpUpdate d t s
    if d > s1.last_distance then s1
    else cpPassList dfun rest { s1 with last_distance := d }

theorem cpForward_eq_passList (evalFn : ℝ → ℝ × ℝ) (point : ℝ × ℝ) (ov : ℝ) :
    ∀ (fuel : ℕ) (t : ℝ) (s : CPState),
      cpForward evalFn point ov fuel t s =
        cpPassList (fun u => dist (evalFn u) point) (cpVisitsF ov fuel t) s := by
  intro fuel
  induction fuel with
  | zero => intro t s; rfl
  | succ n ih =>
    intro t s
    rw [cpForward, cpVisitsF]
    by_cases h : t ≤ 1 + ov
    · rw [if_pos h, if_pos h, cpPassList]
      by_cases hb : dist (evalFn t) point >
          (cpUpdate (dist (evalFn t) point) t s).last_distance
      · rw [if_pos hb, if_pos hb]
      · rw [if_neg hb, if_neg hb, ih]
    · rw [if_neg h, if_neg h, cpPassList]

theorem cpReverse_eq_passList (evalFn : ℝ → ℝ × ℝ) (point : ℝ × ℝ) (ov : ℝ) :
    ∀ (fuel : ℕ) (t : ℝ) (s : CPState),
      cpReverse evalFn point ov fuel t s =
        cpPassList (fun u => dist (evalFn u) point) (cpVisitsR ov fuel t) s := by
  intro fuel
  induction fuel with
  | zero => intro t s; rfl
  | succ n ih =>
    intro t s
    rw [cpReverse, cpVisitsR]
    by_cases h : 0 - ov ≤ t
    · rw [if_pos h, if_pos h, cpPassList]
      by_cases hb : dist (evalFn t) point >
          (cpUpdate (dist (evalFn t) point) t s).last_distance
      · rw [if_pos hb, if_pos hb]
      · rw [if_neg hb, if_neg hb, ih]
    · rw [if_neg h, if_neg h, cpPassList]

theorem cpVisitsF_eq_grid (ov : ℝ) :
    ∀ (n : ℕ) (t : ℝ), (∀ k < n, t + k * (1 / 100 : ℝ) ≤ 1 + ov) →
      ¬(t + n * (1 / 100 : ℝ) ≤ 1 + ov) →
      cpVisitsF ov (n + 1) t =
        (List.range n).map (fun k : ℕ => t + (k : ℝ) * (1 / 100)) := by
  intro n
  induction n with
  | zero =>
    intro t _ hstop
    have h0 : ¬(t ≤ 1 + ov) := by
      intro h; exact hstop (by push_cast; linarith)
    rw [cpVisitsF, if_neg h0, List.range_zero, List.map_nil]
  | succ n ih =>
    intro t hall hstop
    have h0 : t ≤ 1 + ov := by
      have := hall 0 (Nat.succ_pos n)
      push_cast at this; linarith
    rw [cpVisitsF, if_pos h0]
    have htail : cpVisitsF ov (n + 1) (t + 1 / 100) =
        (List.range n).map
          (fun k : ℕ => (t + 1 / 100) + (k : ℝ) * (1 / 100)) := by
      apply ih
      · intro k hk
        have := hall (k + 1) (by omega)
        push_cast at this ⊢; linarith
      · intro h
        apply hstop
        push_cast at h ⊢; linarith
    rw [htail, List.range_succ_eq_map, List.map_cons, List.map_map]
    congr 1
    · push_cast; ring
    · apply List.map_congr_left
      intro k _
      simp only [Function.comp_apply]
      push_cast; ring

theorem cpVisitsR_eq_grid (ov : ℝ) :
    ∀ (n : ℕ) (t : ℝ), (∀ k < n, 0 - ov ≤ t - k * (1 / 100 : ℝ)) →
      ¬(0 - ov ≤ t - n * (1 / 100 : ℝ)) →
      cpVisitsR ov (n + 1) t =
        (List.range n).map (fun k : ℕ => t - (k : ℝ) * (1 / 100)) := by
  intro n
  induction n with
  | zero =>
    intro t _ hstop
    have h0 : ¬(0 - ov ≤ t) := by
      intro h; exact hstop (by push_cast; linarith)
    rw [cpVisitsR, if_neg h0, List.range_zero, List.map_nil]
  | succ n ih =>
    intro t hall hstop
    have h0 : 0 - ov ≤ t := by
      have := hall 0 (Nat.succ_pos n)
      push_cast at this; linarith
    rw [cpVisitsR, if_pos h0]
    have htail : cpVisitsR ov (n + 1) (t - 1 / 100) =
        (List.range n).map
          (fun k : ℕ => (t - 1 / 100) - (k : ℝ) * (1 / 100)) := by
      apply ih
      · intro k hk
        have := hall (k + 1) (by omega)
        push_cast at this ⊢; linarith
      · intro h
        apply hstop
        push_cast at h ⊢; linarith
    rw [htail, List.range_succ_eq_map, List.map_cons, List.map_map]
    congr 1
    · push_cast; ring
    · apply List.map_congr_left
      intro k _
      simp only [Function.comp_apply]
      push_cast; ring

theorem cpFwdCount_spec (t0 ov : ℝ) :
    (∀ k < cpFwdCount t0 ov, t0 + k * (1 / 100 : ℝ) ≤ 1 + ov) ∧
      ¬(t0 + (cpFwdCount t0 ov) * (1 / 100 : ℝ) ≤ 1 + ov) := by
  by_cases h : t0 ≤ 1 + ov
  · have hM0 : (0 : ℤ) ≤ ⌊(1 + ov - t0) * 100⌋ :=
      Int.floor_nonneg.mpr (by nlinarith)
    have hcount : cpFwdCount t0 ov = (⌊(1 + ov - t0) * 100⌋).toNat + 1 :=
      if_pos h
    constructor
    · intro k hk
      rw [hcount] at hk
      have hkM : (k : ℤ) ≤ ⌊(1 + ov - t0) * 100⌋ := by
        have := Int.toNat_of_nonneg hM0
        omega
      have hkr : (k : ℝ) ≤ (1 + ov - t0) * 100 := by
        have := Int.le_floor.mp hkM
        push_cast at this
        exact this
      linarith
    · intro hcontra
      rw [hcount] at hcontra
      have hfl : (1 + ov - t0) * 100 < ⌊(1 + ov - t0) * 100⌋ + 1 :=
        Int.lt_floor_add_one _
      have h1 : ((⌊(1 + ov - t0) * 100⌋.toNat : ℕ) : ℝ)
          = ((⌊(1 + ov - t0) * 100⌋ : ℤ) : ℝ) :=
        mod_cast congrArg (fun z : ℤ => (z : ℝ)) (Int.toNat_of_nonneg hM0)
      have hcast : (((⌊(1 + ov - t0) * 100⌋).toNat + 1 : ℕ) : ℝ)
          = ((⌊(1 + ov - t0) * 100⌋ : ℤ) : ℝ) + 1 := by
        rw [Nat.cast_add, Nat.cast_one, h1]
      rw [hcast] at hcontra
      linarith
  · have hcount : cpFwdCount t0 ov = 0 := if_neg h
    rw [hcount]
    constructor
    · intro k hk; omega
    · intro hcontra
      push_cast at hcontra
      exact h (by linarith)

theorem cpRevCount_spec (t0 ov : ℝ) :
    (∀ k < cpRevCount t0 ov, 0 - ov ≤ t0 - k * (1 / 100 : ℝ)) ∧
      ¬(0 - ov ≤ t0 - (cpRevCount t0 ov) * (1 / 100 : ℝ)) := by
  by_cases h : 0 - ov ≤ t0
  · have hM0 : (0 : ℤ) ≤ ⌊(t0 + ov) * 100⌋ :=
      Int.floor_nonneg.mpr (by nlinarith)
    have hcount : cpRevCount t0 ov = (⌊(t0 + ov) * 100⌋).toNat + 1 := if_pos h
    constructor
    · intro k hk
      rw [hcount] at hk
      have hkM : (k : ℤ) ≤ ⌊(t0 + ov) * 100⌋ := by
        have := Int.toNat_of_nonneg hM0
        omega
      have hkr : (k : ℝ) ≤ (t0 + ov) * 100 := by
        have := Int.le_floor.mp hkM
        push_cast at this
        exact this
      linarith
    · intro hcontra
      rw [hcount] at hcontra
      have hfl : (t0 + ov) * 100 < ⌊(t0 + ov) * 100⌋ + 1 :=
        Int.lt_floor_add_one _
      have h1 : ((⌊(t0 + ov) * 100⌋.toNat : ℕ) : ℝ)
          = ((⌊(t0 + ov) * 100⌋ : ℤ) : ℝ) :=
        mod_cast congrArg (fun z : ℤ => (z : ℝ)) (Int.toNat_of_nonneg hM0)
      have hcast : (((⌊(t0 + ov) * 100⌋).toNat + 1 : ℕ) : ℝ)
          = ((⌊(t0 + ov) * 100⌋ : ℤ) : ℝ) + 1 := by
        rw [Nat.cast_add, Nat.cast_one, h1]
      rw [hcast] at hcontra
      linarith
  · have hcount : cpRevCount t0 ov = 0 := if_neg h
    rw [hcount]
    constructor
    · intro k hk; omega
    · intro hcontra
      push_cast at hcontra
      exact h (by linarith)

theorem cpVisitsF_eq_fwdGrid (t0 ov : ℝ) :
    cpVisitsF ov (cpFwdCount t0 ov + 1) t0 = fwdGrid t0 ov := by
  have hs := cpFwdCount_spec t0 ov
  rw [cpVisitsF_eq_grid ov (cpFwdCount t0 ov) t0 hs.1 hs.2, fwdGrid]

theorem cpVisitsR_eq_revGrid (t0 ov : ℝ) :
    cpVisitsR ov (cpRevCount t0 ov + 1) t0 = revGrid t0 ov := by
  have hs := cpRevCount_spec t0 ov
  rw [cpVisitsR_eq_grid ov (cpRevCount t0 ov) t0 hs.1 hs.2, revGrid]

/-- The samples a pass actually examines, walking a window grid with the
running `last_distance`: each sample is visited, and the pass stops right
after the first sample whose distance strictly exceeds the previous one. -/
def passVisited (dfun : ℝ → ℝ) : ℝ → List ℝ → List ℝ
  | _, [] => []
  | last, t :: rest =>
    t :: (if dfun t > last then [] else passVisited dfun (dfun t) rest)

/-- The value of `last_distance` when a pass ends (on break the previous
value is kept: the source breaks before `last_distance = distance`). -/
def passFinalLast (dfun : ℝ → ℝ) : ℝ → List ℝ → ℝ
  | last, [] => last
  | last, t :: rest =>
    if dfun t > last then last else passFinalLast dfun (dfun t) rest

theorem cpUpdate_eq_porUpdate (d t : ℝ) (s : CPState) :
    cpUpdate d t s =
      ⟨(porUpdate d t (s.closest_t, s.closest_distance)).1,
        (porUpdate d t (s.closest_t, s.closest_distance)).2,
        s.last_distance⟩ := by
  rcases s with ⟨ct, cd, last⟩
  cases cd with
  | none => rfl
  | some c =>
    by_cases h : d < c <;>
      simp [cpUpdate, porUpdate, h]

theorem cpPassList_char (dfun : ℝ → ℝ) :
    ∀ (L : List ℝ) (ct : ℝ) (cd : Option ℝ) (last : ℝ),
      cpPassList dfun L ⟨ct, cd, last⟩ =
        ⟨((passVisited dfun last L).foldl
            (fun s v => porUpdate (dfun v) v s) (ct, cd)).1,
          ((passVisited dfun last L).foldl
            (fun s v => porUpdate (dfun v) v s) (ct, cd)).2,
          passFinalLast dfun last L⟩ := by
  intro L
  induction L with
  | nil => intro ct cd last; rfl
  | cons t rest ih =>
    intro ct cd last
    have hs1 := cpUpdate_eq_porUpdate (dfun t) t ⟨ct, cd, last⟩
    simp only [cpPassList, passVisited, passFinalLast, hs1]
    by_cases hb : dfun t > last
    · rw [if_pos hb, if_pos hb, if_pos hb]
      rfl
    · rw [if_neg hb, if_neg hb, if_neg hb]
      rw [ih (porUpdate (dfun t) t (ct, cd)).1
        (porUpdate (dfun t) t (ct, cd)).2 (dfun t)]
      rw [List.foldl_cons]

/-- **C4 amended**: `closest_point` is a bidirectional local search from the
hint with step 0.01 over the window `[-overshoot, 1 + overshoot]`, but: each
pass advances while the sampled distance does not *strictly* increase
(stopping right after the first strictly increasing sample), the reverse
pass restarts at the hint yet *inherits the running last-distance from the
end of the forward pass* instead of resetting it (so it can stop at its
very first sample), and the returned `t` is the first sample *in visit
order* (forward pass, then reverse pass) attaining the minimum sampled
distance over the visited samples — on ties the earlier-visited sample
wins, which is not necessarily the smaller `t`. -/
theorem closest_point_is_first_visited_argmin (evalFn : ℝ → ℝ × ℝ)
    (point : ℝ × ℝ) (initial_t overshoot : Option ℝ) :
    (let t0 := initial_t.getD 0
     let ov := overshoot.getD 0
     let dfun := fun u => dist (evalFn u) point
     let VF := passVisited dfun (dfun t0) (fwdGrid t0 ov)
     let lastF := passFinalLast dfun (dfun t0) (fwdGrid t0 ov)
     let VR := passVisited dfun lastF (revGrid t0 ov)
     closest_point evalFn point initial_t overshoot =
       ((VF ++ VR).foldl (fun s v => porUpdate (dfun v) v s) (t0, none)).1) := by
  intro t0 ov dfun VF lastF VR
  simp only [closest_point, cpForward_eq_passList, cpReverse_eq_passList,
    cpVisitsF_eq_fwdGrid, cpVisitsR_eq_revGrid]
  rw [cpPassList_char dfun (fwdGrid t0 ov) t0 none (dfun t0)]
  rw [cpPassList_char dfun (revGrid t0 ov)]
  rw [List.foldl_append]

/-! ### `closest_point` as claim C4 states it

The definitions below follow the claim's words, for comparison with the
source model: each pass is initialised afresh from the hint ("the reverse
pass is symmetric from the same start"), advances while the sampled
distance decreases, stops at the first non-decreasing sample, and the `t`
of overall minimum sampled distance is returned, the smaller `t` winning
ties. -/

/-- The tail of a claimed pass: keep advancing while the distance strictly
decreases; stop at the first non-decreasing sample. -/
def specPassGo (dfun : ℝ → ℝ) : ℝ → List ℝ → List ℝ
  | _, [] => []
  | prev, t :: rest =>
    if dfun t < prev then t :: specPassGo dfun (dfun t) rest else []

/-- A claimed pass over a window grid, starting afresh at the grid's first
sample. -/
def specPass (dfun : ℝ → ℝ) : List ℝ → List ℝ
  | [] => []
  | t :: rest => t :: specPassGo dfun (dfun t) rest

/-- One step of the minimum-with-smaller-`t`-tie-break selection. -/
def amStep (dfun : ℝ → ℝ) (acc : Option ℝ) (t : ℝ) : Option ℝ :=
  match acc with
  | none => some t
  | some u =>
    if dfun t < dfun u ∨ (dfun t = dfun u ∧ t < u) then some t else some u

/-- The `t` of minimum sampled distance, the smaller `t` winning ties. -/
def argminSmallerT (dfun : ℝ → ℝ) (L : List ℝ) : Option ℝ :=
  L.foldl (amStep dfun) none

/-- `closest_point` as the claim describes it: bidirectional local search,
both passes fresh from the hint, overall minimum with smaller-`t`
tie-break. -/
def closest_point_spec (evalFn : ℝ → ℝ × ℝ) (point : ℝ × ℝ)
    (initial_t overshoot : Option ℝ) : ℝ :=
  let t0 := initial_t.getD 0
  let ov := overshoot.getD 0
  let dfun := fun u => dist (evalFn u) point
  match argminSmallerT dfun
      (specPass dfun (fwdGrid t0 ov) ++ specPass dfun (revGrid t0 ov)) with
  | some t => t
  | none => t0

/-- Cons-structured window grid, for evaluating the searches on concrete
inputs. -/
def gridFrom (t0 step : ℝ) : ℕ → List ℝ
  | 0 => []
  | n + 1 => t0 :: gridFrom (t0 + step) step n

theorem gridFrom_unfold (t0 step : ℝ) (n : ℕ) :
    gridFrom t0 step (n + 1) = t0 :: gridFrom (t0 + step) step n := rfl

theorem map_range_eq_gridFrom (step : ℝ) :
    ∀ (n : ℕ) (t0 : ℝ),
      (List.range n).map (fun k : ℕ => t0 + (k : ℝ) * step) =
        gridFrom t0 step n := by
  intro n
  induction n with
  | zero => intro t0; rfl
  | succ n ih =>
    intro t0
    rw [List.range_succ_eq_map, List.map_cons, List.map_map, gridFrom_unfold]
    congr 1
    · push_cast; ring
    · rw [← ih (t0 + step)]
      apply List.map_congr_left
      intro k _
      simp only [Function.comp_apply]
      push_cast; ring

theorem fwdGrid_eq_gridFrom (t0 ov : ℝ) :
    fwdGrid t0 ov = gridFrom t0 (1 / 100) (cpFwdCount t0 ov) := by
  rw [fwdGrid, map_range_eq_gridFrom]

theorem revGrid_eq_gridFrom (t0 ov : ℝ) :
    revGrid t0 ov = gridFrom t0 (-(1 / 100)) (cpRevCount t0 ov) := by
  rw [revGrid, ← map_range_eq_gridFrom]
  apply List.map_congr_left
  intro k _
  ring

/-- The C4 counterexample path's x-coordinate: a step function whose
sampled distances from the origin around `t = 0.5` are
`d(0.48) = 7, d(0.49) = 2, d(0.50) = 5, d(0.51) = 4, d(0.52) = 6`. -/
def c4G (t : ℝ) : ℝ :=
  if t < 97 / 200 then 7
  else if t < 99 / 200 then 2
  else if t < 101 / 200 then 5
  else if t < 103 / 200 then 4
  else 6

/-- The C4 counterexample path: it runs along the x-axis, the query point
is the origin, so every sampled distance is `c4G t` itself. -/
def c4Eval (t : ℝ) : ℝ × ℝ := (c4G t, 0)

theorem c4G_nonneg (t : ℝ) : 0 ≤ c4G t := by
  rw [c4G]
  split_ifs <;> norm_num

theorem c4dist (t : ℝ) : dist (c4Eval t) (0, 0) = c4G t := by
  rw [dist]
  have h1 : (c4Eval t).1 - ((0 : ℝ), (0 : ℝ)).1 = c4G t := by
    rw [c4Eval]; norm_num
  have h2 : (c4Eval t).2 - ((0 : ℝ), (0 : ℝ)).2 = 0 := by
    rw [c4Eval]; norm_num
  rw [h1, h2]
  rw [show c4G t ^ 2 + (0 : ℝ) ^ 2 = c4G t ^ 2 by ring]
  exact Real.sqrt_sq (c4G_nonneg t)

theorem c4d50 : dist (c4Eval (1 / 2)) (0, 0) = 5 := by
  rw [c4dist, c4G, if_neg (by norm_num), if_neg (by norm_num),
    if_pos (by norm_num)]

theorem c4d51 : dist (c4Eval (1 / 2 + 1 / 100)) (0, 0) = 4 := by
  rw [c4dist, c4G, if_neg (by norm_num), if_neg (by norm_num),
    if_neg (by norm_num), if_pos (by norm_num)]

theorem c4d52 : dist (c4Eval (1 / 2 + 1 / 100 + 1 / 100)) (0, 0) = 6 := by
  rw [c4dist, c4G, if_neg (by norm_num), if_neg (by norm_num),
    if_neg (by norm_num), if_neg (by norm_num)]

theorem c4d49 : dist (c4Eval (1 / 2 + -(1 / 100))) (0, 0) = 2 := by
  rw [c4dist, c4G, if_neg (by norm_num), if_pos (by norm_num)]

theorem c4d48 : dist (c4Eval (1 / 2 + -(1 / 100) + -(1 / 100))) (0, 0) = 7 := by
  rw [c4dist, c4G, if_pos (by norm_num)]

theorem c4FwdCount : cpFwdCount (1 / 2) 0 = 51 := by
  rw [cpFwdCount, if_pos (by norm_num : (1 / 2 : ℝ) ≤ 1 + 0)]
  rw [show ((1 : ℝ) + 0 - 1 / 2) * 100 = ((50 : ℤ) : ℝ) by norm_num,
    Int.floor_intCast]
  rfl

theorem c4RevCount : cpRevCount (1 / 2) 0 = 51 := by
  rw [cpRevCount, if_pos (by norm_num : (0 : ℝ) - 0 ≤ 1 / 2)]
  rw [show ((1 : ℝ) / 2 + 0) * 100 = ((50 : ℤ) : ℝ) by norm_num,
    Int.floor_intCast]
  rfl

theorem c4VF :
    passVisited (fun u => dist (c4Eval u) (0, 0)) 5
        (gridFrom (1 / 2) (1 / 100) 51) =
      [1 / 2, 1 / 2 + 1 / 100, 1 / 2 + 1 / 100 + 1 / 100] := by
  rw [show (51 : ℕ) = 50 + 1 by norm_num, gridFrom_unfold, passVisited]
  simp only [c4d50]
  rw [if_neg (by norm_num : ¬(5 : ℝ) > 5)]
  rw [show (50 : ℕ) = 49 + 1 by norm_num, gridFrom_unfold, passVisited]
  simp only [c4d51]
  rw [if_neg (by norm_num : ¬(4 : ℝ) > 5)]
  rw [show (49 : ℕ) = 48 + 1 by norm_num, gridFrom_unfold, passVisited]
  simp only [c4d52]
  rw [if_pos (by norm_num : (6 : ℝ) > 4)]

theorem c4LastF :
    passFinalLast (fun u => dist (c4Eval u) (0, 0)) 5
      (gridFrom (1 / 2) (1 / 100) 51) = 4 := by
  rw [show (51 : ℕ) = 50 + 1 by norm_num, gridFrom_unfold, passFinalLast]
  simp only [c4d50]
  rw [if_neg (by norm_num : ¬(5 : ℝ) > 5)]
  rw [show (50 : ℕ) = 49 + 1 by norm_num, gridFrom_unfold, passFinalLast]
  simp only [c4d51]
  rw [if_neg (by norm_num : ¬(4 : ℝ) > 5)]
  rw [show (49 : ℕ) = 48 + 1 by norm_num, gridFrom_unfold, passFinalLast]
  simp only [c4d52]
  rw [if_pos (by norm_num : (6 : ℝ) > 4)]

theorem c4VR :
    passVisited (fun u => dist (c4Eval u) (0, 0)) 4
      (gridFrom (1 / 2) (-(1 / 100)) 51) = [1 / 2] := by
  rw [show (51 : ℕ) = 50 + 1 by norm_num, gridFrom_unfold, passVisited]
  simp only [c4d50]
  rw [if_pos (by norm_num : (5 : ℝ) > 4)]

/-- Single-step evaluations of the running-minimum update on the C4 input. -/
theorem c4p1 : porUpdate (dist (c4Eval (1 / 2)) (0, 0)) (1 / 2)
    ((1 / 2 : ℝ), (none : Option ℝ)) = (1 / 2, some 5) := by
  rw [c4d50]
  rfl

theorem c4p2 : porUpdate (dist (c4Eval (1 / 2 + 1 / 100)) (0, 0))
    (1 / 2 + 1 / 100) ((1 / 2 : ℝ), some 5) = (1 / 2 + 1 / 100, some 4) := by
  rw [c4d51, porUpdate]
  show (if (4 : ℝ) < 5 then ((1 / 2 + 1 / 100 : ℝ), some (4 : ℝ))
    else (1 / 2, some 5)) = (1 / 2 + 1 / 100, some 4)
  rw [if_pos (by norm_num : (4 : ℝ) < 5)]

theorem c4p3 : porUpdate (dist (c4Eval (1 / 2 + 1 / 100 + 1 / 100)) (0, 0))
    (1 / 2 + 1 / 100 + 1 / 100) ((1 / 2 + 1 / 100 : ℝ), some 4) =
    (1 / 2 + 1 / 100, some 4) := by
  rw [c4d52, porUpdate]
  show (if (6 : ℝ) < 4 then ((1 / 2 + 1 / 100 + 1 / 100 : ℝ), some (6 : ℝ))
    else (1 / 2 + 1 / 100, some 4)) = (1 / 2 + 1 / 100, some 4)
  rw [if_neg (by norm_num : ¬(6 : ℝ) < 4)]

theorem c4p4 : porUpdate (dist (c4Eval (1 / 2)) (0, 0)) (1 / 2)
    ((1 / 2 + 1 / 100 : ℝ), some 4) = (1 / 2 + 1 / 100, some 4) := by
  rw [c4d50, porUpdate]
  show (if (5 : ℝ) < 4 then ((1 / 2 : ℝ), some (5 : ℝ))
    else (1 / 2 + 1 / 100, some 4)) = (1 / 2 + 1 / 100, some 4)
  rw [if_neg (by norm_num : ¬(5 : ℝ) < 4)]

theorem c4FoldFwd :
    ([1 / 2, 1 / 2 + 1 / 100, 1 / 2 + 1 / 100 + 1 / 100] : List ℝ).foldl
      (fun s v => porUpdate (dist (c4Eval v) (0, 0)) v s) (1 / 2, none) =
      (1 / 2 + 1 / 100, some 4) := by
  simp only [List.foldl_cons, List.foldl_nil]
  rw [c4p1, c4p2, c4p3]

theorem c4LastR :
    passFinalLast (fun u => dist (c4Eval u) (0, 0)) 4
      (gridFrom (1 / 2) (-(1 / 100)) 51) = 4 := by
  rw [show (51 : ℕ) = 50 + 1 by norm_num, gridFrom_unfold, passFinalLast]
  simp only [c4d50]
  rw [if_pos (by norm_num : (5 : ℝ) > 4)]

/-- **C4 counterexample**: on the step path `c4Eval` with query `(0,0)`,
hint `0.5` and overshoot `0`, the source's `closest_point` returns `0.51`:
its forward pass finds the local minimum `d(0.51) = 4` and leaves
`last_distance = 4`, so the reverse pass — which inherits that value
instead of restarting from `d(0.5) = 5` — breaks at its very first sample
and never reaches `d(0.49) = 2`.  The search the claim describes (a reverse
pass symmetric from the same start, then the overall minimum with a
smaller-`t` tie-break) returns `0.49`. -/
theorem closest_point_not_symmetric_counterexample :
    closest_point c4Eval (0, 0) (some (1 / 2)) (some 0) = 1 / 2 + 1 / 100 ∧
      closest_point_spec c4Eval (0, 0) (some (1 / 2)) (some 0) =
        1 / 2 + -(1 / 100) ∧
      (1 / 2 + 1 / 100 : ℝ) ≠ 1 / 2 + -(1 / 100) := by
  refine ⟨?_, ?_, by norm_num⟩
  · -- the source model, evaluated through the pass characterisation
    simp only [closest_point, Option.getD_some]
    rw [cpForward_eq_passList, cpReverse_eq_passList, cpVisitsF_eq_fwdGrid,
      cpVisitsR_eq_revGrid, fwdGrid_eq_gridFrom, revGrid_eq_gridFrom,
      c4FwdCount, c4RevCount, c4d50]
    have hinner : cpPassList (fun u => dist (c4Eval u) (0, 0))
        (gridFrom (1 / 2) (1 / 100) 51) ⟨1 / 2, none, 5⟩ =
        ⟨1 / 2 + 1 / 100, some 4, 4⟩ := by
      rw [cpPassList_char, c4VF, c4LastF, c4FoldFwd]
    rw [hinner]
    have houter : cpPassList (fun u => dist (c4Eval u) (0, 0))
        (gridFrom (1 / 2) (-(1 / 100)) 51) ⟨1 / 2 + 1 / 100, some 4, 4⟩ =
        ⟨1 / 2 + 1 / 100, some 4, 4⟩ := by
      rw [cpPassList_char, c4VR, c4LastR]
      simp only [List.foldl_cons, List.foldl_nil]
      rw [c4p4]
    rw [houter]
  · -- the claim's own algorithm
    simp only [closest_point_spec, Option.getD_some]
    rw [fwdGrid_eq_gridFrom, revGrid_eq_gridFrom, c4FwdCount, c4RevCount]
    have hsf : specPass (fun u => dist (c4Eval u) (0, 0))
        (gridFrom (1 / 2) (1 / 100) 51) = [1 / 2, 1 / 2 + 1 / 100] := by
      rw [show (51 : ℕ) = 50 + 1 by norm_num, gridFrom_unfold, specPass]
      rw [show (50 : ℕ) = 49 + 1 by norm_num, gridFrom_unfold, specPassGo]
      simp only [c4d50, c4d51]
      rw [if_pos (by norm_num : (4 : ℝ) < 5)]
      rw [show (49 : ℕ) = 48 + 1 by norm_num, gridFrom_unfold, specPassGo]
      simp only [c4d52]
      rw [if_neg (by norm_num : ¬(6 : ℝ) < 4)]
    have hsr : specPass (fun u => dist (c4Eval u) (0, 0))
        (gridFrom (1 / 2) (-(1 / 100)) 51) =
        [1 / 2, 1 / 2 + -(1 / 100)] := by
      rw [show (51 : ℕ) = 50 + 1 by norm_num, gridFrom_unfold, specPass]
      rw [show (50 : ℕ) = 49 + 1 by norm_num, gridFrom_unfold, specPassGo]
      simp only [c4d50, c4d49]
      rw [if_pos (by norm_num : (2 : ℝ) < 5)]
      rw [show (49 : ℕ) = 48 + 1 by norm_num, gridFrom_unfold, specPassGo]
      simp only [c4d48]
      rw [if_neg (by norm_num : ¬(7 : ℝ) < 2)]
    rw [hsf, hsr]
    have ha1 : amStep (fun u => dist (c4Eval u) (0, 0)) none (1 / 2) =
        some (1 / 2) := rfl
    have ha2 : amStep (fun u => dist (c4Eval u) (0, 0)) (some (1 / 2))
        (1 / 2 + 1 / 100) = some (1 / 2 + 1 / 100) := by
      rw [amStep]
      show (if dist (c4Eval (1 / 2 + 1 / 100)) (0, 0) <
            dist (c4Eval (1 / 2)) (0, 0) ∨
          (dist (c4Eval (1 / 2 + 1 / 100)) (0, 0) =
            dist (c4Eval (1 / 2)) (0, 0) ∧ 1 / 2 + 1 / 100 < 1 / 2) then
          some (1 / 2 + 1 / 100) else some (1 / 2)) = some (1 / 2 + 1 / 100)
      rw [c4d51, c4d50, if_pos (Or.inl (by norm_num : (4 : ℝ) < 5))]
    have ha3 : amStep (fun u => dist (c4Eval u) (0, 0))
        (some (1 / 2 + 1 / 100)) (1 / 2) = some (1 / 2 + 1 / 100) := by
      rw [amStep]
      show (if dist (c4Eval (1 / 2)) (0, 0) <
            dist (c4Eval (1 / 2 + 1 / 100)) (0, 0) ∨
          (dist (c4Eval (1 / 2)) (0, 0) =
            dist (c4Eval (1 / 2 + 1 / 100)) (0, 0) ∧
            1 / 2 < 1 / 2 + 1 / 100) then
          some (1 / 2) else some (1 / 2 + 1 / 100)) = some (1 / 2 + 1 / 100)
      rw [c4d51, c4d50]
      rw [if_neg ?hc]
      case hc =>
        rintro (h | ⟨h, -⟩)
        · exact absurd h (by norm_num)
        · exact absurd h (by norm_num)
    have ha4 : amStep (fun u => dist (c4Eval u) (0, 0))
        (some (1 / 2 + 1 / 100)) (1 / 2 + -(1 / 100)) =
        some (1 / 2 + -(1 / 100)) := by
      rw [amStep]
      show (if dist (c4Eval (1 / 2 + -(1 / 100))) (0, 0) <
            dist (c4Eval (1 / 2 + 1 / 100)) (0, 0) ∨
          (dist (c4Eval (1 / 2 + -(1 / 100))) (0, 0) =
            dist (c4Eval (1 / 2 + 1 / 100)) (0, 0) ∧
            1 / 2 + -(1 / 100) < 1 / 2 + 1 / 100) then
          some (1 / 2 + -(1 / 100)) else some (1 / 2 + 1 / 100)) =
        some (1 / 2 + -(1 / 100))
      rw [c4d49, c4d51, if_pos (Or.inl (by norm_num : (2 : ℝ) < 4))]
    have hmin : argminSmallerT (fun u => dist (c4Eval u) (0, 0))
        ([1 / 2, 1 / 2 + 1 / 100] ++ [1 / 2, 1 / 2 + -(1 / 100)]) =
        some (1 / 2 + -(1 / 100)) := by
      rw [argminSmallerT]
      simp only [List.cons_append, List.nil_append, List.foldl_cons,
        List.foldl_nil]
      rw [ha1, ha2, ha3, ha4]
    rw [hmin]

end Libdoxa

end
